import Mathlib

/-!
Verification of the discovery-service provisioning core.

This file gives a shallow embedding, in Lean 4, of the security and ledger
core of the device-provisioning service (HMAC request authentication,
per-device key derivation salt, AES-GCM payload framing, base64 transport
encoding, hostname allocation, the registration/confirmation handlers and
the registration statistics), together with theorems settling the spec
claims about that core.

Bytes are modelled as natural numbers (with explicit `< 256` bounds where
they matter), byte strings as `List Nat`, times as `Int` (Unix seconds),
and the ambient sources of nondeterminism of the code (current time,
random nonce) as explicit arguments.  The external cryptographic
primitives the code calls into (HMAC-SHA256 hex digest, Scrypt, the AES
block function) are taken as function parameters: every theorem below
holds for an arbitrary choice of these functions, which is exactly the
strength the code's composition provides.
-/

/-! ## Byte-level helpers -/

/-- Pointwise XOR of two byte strings (truncating to the shorter one),
the combination `bytes(a) ^ bytes(b)` used by counter-mode encryption. -/
def zipXor (a b : List Nat) : List Nat := List.zipWith (fun x y => x ^^^ y) a b

/-- Big-endian bytes of `n`, `len` bytes wide (`n` taken mod `256^len`). -/
def natToBytesBE : Nat → Nat → List Nat
  | _, 0 => []
  | n, len + 1 => natToBytesBE (n / 256) len ++ [n % 256]

/-- Big-endian interpretation of a byte string as a natural number. -/
def bytesToNatBE (l : List Nat) : Nat := l.foldl (fun a b => a * 256 + b) 0

theorem natToBytesBE_length (n len : Nat) : (natToBytesBE n len).length = len := by
  induction len generalizing n with
  | zero => rfl
  | succ k ih => simp [natToBytesBE, ih]

theorem natToBytesBE_lt (n len : Nat) : ∀ b ∈ natToBytesBE n len, b < 256 := by
  induction len generalizing n with
  | zero => simp [natToBytesBE]
  | succ k ih =>
    intro b hb
    simp only [natToBytesBE, List.mem_append, List.mem_singleton] at hb
    rcases hb with h | h
    · exact ih _ _ h
    · subst h; exact Nat.mod_lt _ (by omega)

theorem zipXor_length (a b : List Nat) :
    (zipXor a b).length = min a.length b.length := by
  simp [zipXor]

theorem xor_xor_cancel (a b : Nat) : a ^^^ b ^^^ b = a := by
  rw [Nat.xor_assoc, Nat.xor_self, Nat.xor_zero]

theorem zipXor_zipXor_cancel (p ks : List Nat) (h : p.length ≤ ks.length) :
    zipXor (zipXor p ks) ks = p := by
  induction p generalizing ks with
  | nil => simp [zipXor]
  | cons x xs ih =>
    cases ks with
    | nil => simp at h
    | cons y ys =>
      simp only [zipXor, List.zipWith] at *
      rw [xor_xor_cancel]
      have := ih ys (by simpa using h)
      simpa [zipXor] using this

theorem zipXor_lt (a b : List Nat) (ha : ∀ x ∈ a, x < 256) (hb : ∀ x ∈ b, x < 256) :
    ∀ x ∈ zipXor a b, x < 256 := by
  induction a generalizing b with
  | nil => simp [zipXor]
  | cons y ys ih =>
    cases b with
    | nil => simp [zipXor]
    | cons z zs =>
      intro x hx
      simp only [zipXor, List.zipWith, List.mem_cons] at hx
      rcases hx with h | h
      · subst h
        have h1 : y < 2 ^ 8 := ha y (by simp)
        have h2 : z < 2 ^ 8 := hb z (by simp)
        exact Nat.xor_lt_two_pow h1 h2
      · exact ih zs (fun u hu => ha u (List.mem_cons_of_mem _ hu))
          (fun u hu => hb u (List.mem_cons_of_mem _ hu)) x h

/-! ## Base64 transport encoding

The code transports the encrypted bundle as `base64.b64encode(blob).decode()`
and the client reverses it with `base64.b64decode`.  We embed the standard
base64 alphabet and the 3-byte/4-char block structure with `'='` padding. -/

/-- The base64 alphabet: index 0..63 to character. -/
def b64Char (n : Nat) : Char :=
  if n < 26 then Char.ofNat (65 + n)
  else if n < 52 then Char.ofNat (97 + (n - 26))
  else if n < 62 then Char.ofNat (48 + (n - 52))
  else if n = 62 then '+'
  else '/'

/-- Inverse of the base64 alphabet (garbage on non-alphabet input). -/
def b64Index (c : Char) : Nat :=
  if 65 ≤ c.toNat ∧ c.toNat ≤ 90 then c.toNat - 65
  else if 97 ≤ c.toNat ∧ c.toNat ≤ 122 then c.toNat - 97 + 26
  else if 48 ≤ c.toNat ∧ c.toNat ≤ 57 then c.toNat - 48 + 52
  else if c = '+' then 62
  else 63

/-- Base64-encode a byte string into characters, three bytes at a time. -/
def b64EncodeList : List Nat → List Char
  | [] => []
  | [b1] => [b64Char (b1 / 4), b64Char (b1 % 4 * 16), '=', '=']
  | [b1, b2] => [b64Char (b1 / 4), b64Char (b1 % 4 * 16 + b2 / 16), b64Char (b2 % 16 * 4), '=']
  | b1 :: b2 :: b3 :: rest =>
      b64Char (b1 / 4) :: b64Char (b1 % 4 * 16 + b2 / 16) ::
      b64Char (b2 % 16 * 4 + b3 / 64) :: b64Char (b3 % 64) :: b64EncodeList rest

/-- Base64-decode characters into bytes, four characters at a time. -/
def b64DecodeList : List Char → List Nat
  | c1 :: c2 :: c3 :: c4 :: rest =>
      if c3 = '=' then [b64Index c1 * 4 + b64Index c2 / 16]
      else if c4 = '=' then
        [b64Index c1 * 4 + b64Index c2 / 16,
         b64Index c2 % 16 * 16 + b64Index c3 / 4]
      else
        (b64Index c1 * 4 + b64Index c2 / 16) ::
        (b64Index c2 % 16 * 16 + b64Index c3 / 4) ::
        (b64Index c3 % 4 * 64 + b64Index c4) :: b64DecodeList rest
  | _ => []

/-- Python `base64.b64encode(bytes).decode()` of the code. -/
def b64Encode (l : List Nat) : String := String.mk (b64EncodeList l)

/-- Python `base64.b64decode(s)` of the code (on well-formed input). -/
def b64Decode (s : String) : List Nat := b64DecodeList s.toList

theorem b64Index_b64Char : ∀ n < 64, b64Index (b64Char n) = n := by decide

theorem b64Char_ne_eq : ∀ n < 64, b64Char n ≠ '=' := by decide

theorem b64DecodeList_encode : ∀ l : List Nat, (∀ b ∈ l, b < 256) →
    b64DecodeList (b64EncodeList l) = l
  | [], _ => by simp [b64EncodeList, b64DecodeList]
  | [b1], h => by
    have hb1 : b1 < 256 := h b1 (by simp)
    simp only [b64EncodeList, b64DecodeList]
    rw [b64Index_b64Char _ (by omega), b64Index_b64Char _ (by omega)]
    simp only [if_true, List.cons.injEq, and_true]
    omega
  | [b1, b2], h => by
    have hb1 : b1 < 256 := h b1 (by simp)
    have hb2 : b2 < 256 := h b2 (by simp)
    simp only [b64EncodeList, b64DecodeList]
    rw [if_neg (by simpa using b64Char_ne_eq (b2 % 16 * 4) (by omega))]
    rw [b64Index_b64Char _ (by omega), b64Index_b64Char _ (by omega),
        b64Index_b64Char _ (by omega)]
    simp only [if_true, List.cons.injEq, and_true]
    omega
  | [b1, b2, b3], h => by
    have hb1 : b1 < 256 := h b1 (by simp)
    have hb2 : b2 < 256 := h b2 (by simp)
    have hb3 : b3 < 256 := h b3 (by simp)
    simp only [b64EncodeList, b64DecodeList]
    rw [if_neg (by simpa using b64Char_ne_eq (b2 % 16 * 4 + b3 / 64) (by omega))]
    rw [if_neg (by simpa using b64Char_ne_eq (b3 % 64) (by omega))]
    rw [b64Index_b64Char _ (by omega), b64Index_b64Char _ (by omega),
        b64Index_b64Char _ (by omega), b64Index_b64Char _ (by omega)]
    simp only [b64EncodeList, b64DecodeList, List.cons.injEq, and_true]
    omega
  | b1 :: b2 :: b3 :: c :: rest, h => by
    have hb1 : b1 < 256 := h b1 (by simp)
    have hb2 : b2 < 256 := h b2 (by simp)
    have hb3 : b3 < 256 := h b3 (by simp)
    simp only [b64EncodeList, b64DecodeList]
    rw [if_neg (by simpa using b64Char_ne_eq (b2 % 16 * 4 + b3 / 64) (by omega))]
    rw [if_neg (by simpa using b64Char_ne_eq (b3 % 64) (by omega))]
    rw [b64Index_b64Char _ (by omega), b64Index_b64Char _ (by omega),
        b64Index_b64Char _ (by omega), b64Index_b64Char _ (by omega)]
    rw [b64DecodeList_encode (c :: rest) (fun b hb => h b (by simp at hb ⊢; tauto))]
    simp only [List.cons.injEq, and_true]
    omega

theorem b64_roundtrip (l : List Nat) (h : ∀ b ∈ l, b < 256) :
    b64Decode (b64Encode l) = l := by
  simpa [b64Decode, b64Encode, String.toList] using b64DecodeList_encode l h

/-! ## Device identity bytes and the key-derivation salt

`SecurityManager.derive_device_key` (server) and
`BootstrapClient._derive_device_key` (client) both compute
`salt = device_serial.encode().ljust(32, b'\x00')[:32]` and call the
Scrypt KDF (an external library primitive, here a function parameter)
with `n = 2^14, r = 8, p = 1, length = 32` on the PSK. -/

/-- UTF-8 bytes of a string: the Python `s.encode()`. -/
def utf8Bytes (s : String) : List Nat :=
  s.data.bind (fun c => (String.utf8EncodeChar c).map (fun b => b.toNat))

/-- The salt `device_serial.encode().ljust(32, b'\x00')[:32]`: the serial's UTF-8
bytes right-padded with zero bytes, or truncated, to exactly 32 bytes. -/
def scryptSalt (serial : String) : List Nat :=
  (utf8Bytes serial ++ List.replicate (32 - (utf8Bytes serial).length) 0).take 32

/-- Function `derive_device_key`: Scrypt applied to the PSK with the per-device
salt.  `scrypt : password → salt → key` is the external KDF. -/
def deriveDeviceKey (scrypt : List Nat → List Nat → List Nat) (psk : List Nat)
    (serial : String) : List Nat :=
  scrypt psk (scryptSalt serial)

/-! ## AES-256-GCM payload cipher

`encrypt_payload` produces `base64(nonce(12) ‖ ciphertext ‖ tag(16))` and
`_decrypt_payload` parses that frame and decrypts.  GCM is embedded at
the NIST SP 800-38D level over an arbitrary block function
`aesEnc : key → 16-byte block → 16-byte block` (the AES-256 cipher of
the external library): GCM uses only the forward direction of the block
cipher, so every theorem here holds for any block function. -/

/-- 16-byte GCM counter block: 12-byte nonce followed by a 32-bit
big-endian counter. -/
def ctrBlock (nonce : List Nat) (i : Nat) : List Nat := nonce ++ natToBytesBE i 4

/-- The CTR keystream that GCM XORs onto the data (counters start at 2). -/
def gcmKeystream (aesEnc : List Nat → List Nat → List Nat) (key nonce : List Nat)
    (n : Nat) : List Nat :=
  ((List.range ((n + 15) / 16)).bind (fun j => aesEnc key (ctrBlock nonce (j + 2)))).take n

/-- The GCM reduction constant R = 0xE1 ‖ 0^120. -/
def gfR : Nat := 0xE1000000000000000000000000000000

/-- Carry-less multiplication in GF(2^128) with the GCM polynomial,
blocks read as 128-bit big-endian integers. -/
def gfMul (x y : Nat) : Nat :=
  ((List.range 128).foldl
    (fun p i =>
      let z := if x.testBit (127 - i) then p.1 ^^^ p.2 else p.1
      let v := if p.2.testBit 0 then (p.2 >>> 1) ^^^ gfR else p.2 >>> 1
      (z, v))
    ((0 : Nat), y)).1

/-- GHASH over a list of 128-bit blocks. -/
def ghash (h : Nat) (blocks : List Nat) : Nat :=
  blocks.foldl (fun y b => gfMul (y ^^^ b) h) 0

/-- Split into 16-byte chunks (fuel-indexed structural recursion). -/
def chunk16Go : Nat → List Nat → List (List Nat)
  | 0, _ => []
  | fuel + 1, l => if l = [] then [] else l.take 16 :: chunk16Go fuel (l.drop 16)

/-- Split a byte string into 16-byte chunks (last one possibly short). -/
def chunk16 (l : List Nat) : List (List Nat) := chunk16Go l.length l

/-- Zero-pad a byte string up to a multiple of 16 bytes. -/
def pad16 (l : List Nat) : List Nat :=
  l ++ List.replicate ((16 - l.length % 16) % 16) 0

/-- The GCM authentication tag over a ciphertext (no associated data):
`E_K(J0) XOR GHASH_H(pad(C) ‖ len64(A)=0 ‖ len64(C))`. -/
def gcmTag (aesEnc : List Nat → List Nat → List Nat) (key nonce ct : List Nat) :
    List Nat :=
  let h := bytesToNatBE (aesEnc key (List.replicate 16 0))
  let s := ghash h ((chunk16 (pad16 ct)).map bytesToNatBE ++ [ct.length * 8])
  zipXor (aesEnc key (ctrBlock nonce 1)) (natToBytesBE s 16)

/-- Server `SecurityManager.encrypt_payload`: derive the device key, AES-GCM
encrypt the serialized payload under a caller-supplied random 12-byte
nonce, frame as `nonce ‖ ciphertext ‖ tag` and base64-encode.  The
plaintext is the UTF-8/JSON serialization `json.dumps(data).encode()`
(the JSON codec is Python's standard library, so the payload is modelled
at the byte level). -/
def encryptPayload (aesEnc scrypt : List Nat → List Nat → List Nat)
    (psk : List Nat) (plaintext : List Nat) (serial : String)
    (nonce : List Nat) : String :=
  let key := deriveDeviceKey scrypt psk serial
  let ct := zipXor plaintext (gcmKeystream aesEnc key nonce plaintext.length)
  let tag := gcmTag aesEnc key nonce ct
  b64Encode (nonce ++ ct ++ tag)

/-- Client `BootstrapClient._decrypt_payload`: independently re-derive the key
from `(PSK, serial)`, base64-decode, split the blob as
`nonce = b[:12]`, `tag = b[-16:]`, `ciphertext = b[12:-16]`, and
GCM-decrypt, failing (`none`) if the tag does not verify. -/
def clientDecryptPayload (aesEnc scrypt : List Nat → List Nat → List Nat)
    (psk : List Nat) (blob : String) (serial : String) : Option (List Nat) :=
  let key := deriveDeviceKey scrypt psk serial
  let b := b64Decode blob
  let nonce := b.take 12
  let tag := b.drop (b.length - 16)
  let ct := (b.drop 12).take (b.length - 16 - 12)
  if gcmTag aesEnc key nonce ct = tag then
    some (zipXor ct (gcmKeystream aesEnc key nonce ct.length))
  else none

/-! ## Round trip of the payload cipher across the two codebases -/

theorem rangeFlatMap_length (f : Nat → List Nat) (hf : ∀ j, (f j).length = 16) :
    ∀ k, ((List.range k).flatMap f).length = 16 * k := by
  intro k
  induction k with
  | zero => simp
  | succ m ih =>
    rw [List.range_succ, List.flatMap_append, List.length_append, ih]
    simp [hf]
    omega

theorem gcmKeystream_length (aesEnc : List Nat → List Nat → List Nat)
    (hlen : ∀ k b, (aesEnc k b).length = 16) (key nonce : List Nat) (n : Nat) :
    (gcmKeystream aesEnc key nonce n).length = n := by
  unfold gcmKeystream
  rw [List.length_take, rangeFlatMap_length _ (fun j => hlen key _)]
  omega

theorem gcmKeystream_lt (aesEnc : List Nat → List Nat → List Nat)
    (hval : ∀ k b, ∀ x ∈ aesEnc k b, x < 256) (key nonce : List Nat) (n : Nat) :
    ∀ x ∈ gcmKeystream aesEnc key nonce n, x < 256 := by
  intro x hx
  unfold gcmKeystream at hx
  rcases List.mem_flatMap.mp (List.mem_of_mem_take hx) with ⟨j, _, hj⟩
  exact hval key _ x hj

theorem gcmTag_length (aesEnc : List Nat → List Nat → List Nat)
    (hlen : ∀ k b, (aesEnc k b).length = 16) (key nonce ct : List Nat) :
    (gcmTag aesEnc key nonce ct).length = 16 := by
  unfold gcmTag
  rw [zipXor_length, hlen, natToBytesBE_length]
  omega

theorem gcmTag_lt (aesEnc : List Nat → List Nat → List Nat)
    (hval : ∀ k b, ∀ x ∈ aesEnc k b, x < 256) (key nonce ct : List Nat) :
    ∀ x ∈ gcmTag aesEnc key nonce ct, x < 256 :=
  zipXor_lt _ _ (hval key _) (natToBytesBE_lt _ _)

/-- Core round trip: the client's decryption of the server's encrypted
frame recovers the plaintext, for any block cipher, any KDF, any key
material and any 12-byte nonce. -/
theorem encrypt_decrypt_roundtrip (aesEnc scrypt : List Nat → List Nat → List Nat)
    (hlen : ∀ k b, (aesEnc k b).length = 16)
    (hval : ∀ k b, ∀ x ∈ aesEnc k b, x < 256)
    (psk plaintext : List Nat) (serial : String) (nonce : List Nat)
    (hpt : ∀ b ∈ plaintext, b < 256)
    (hn : nonce.length = 12) (hnv : ∀ b ∈ nonce, b < 256) :
    clientDecryptPayload aesEnc scrypt psk
      (encryptPayload aesEnc scrypt psk plaintext serial nonce) serial
      = some plaintext := by
  have hkslen : (gcmKeystream aesEnc (deriveDeviceKey scrypt psk serial) nonce
      plaintext.length).length = plaintext.length := gcmKeystream_length aesEnc hlen _ _ _
  set key := deriveDeviceKey scrypt psk serial with hkey
  set ks := gcmKeystream aesEnc key nonce plaintext.length with hks
  set ct := zipXor plaintext ks with hct
  have hctlen : ct.length = plaintext.length := by
    rw [hct, zipXor_length, hkslen]
    omega
  have hctval : ∀ x ∈ ct, x < 256 :=
    zipXor_lt _ _ hpt (gcmKeystream_lt aesEnc hval _ _ _)
  set tag := gcmTag aesEnc key nonce ct with htag
  have htaglen : tag.length = 16 := gcmTag_length aesEnc hlen _ _ _
  have htagval : ∀ x ∈ tag, x < 256 := gcmTag_lt aesEnc hval _ _ _
  have hblob : b64Decode (b64Encode (nonce ++ ct ++ tag)) = nonce ++ ct ++ tag := by
    apply b64_roundtrip
    intro b hb
    rcases List.mem_append.mp hb with hb' | hb'
    · rcases List.mem_append.mp hb' with h | h
      · exact hnv b h
      · exact hctval b h
    · exact htagval b hb'
  have hblen : (nonce ++ ct ++ tag).length = 12 + ct.length + 16 := by
    simp [hn, htaglen]
    omega
  have hparse_nonce : (nonce ++ ct ++ tag).take 12 = nonce := by
    rw [List.append_assoc]
    exact List.take_left' hn
  have hparse_tag : (nonce ++ ct ++ tag).drop ((nonce ++ ct ++ tag).length - 16) = tag := by
    apply List.drop_left'
    simp only [hblen]
    simp [hn]
  have hparse_ct :
      ((nonce ++ ct ++ tag).drop 12).take ((nonce ++ ct ++ tag).length - 16 - 12) = ct := by
    rw [List.append_assoc, List.drop_left' hn]
    have h1 : (nonce ++ (ct ++ tag)).length - 16 - 12 = ct.length := by
      simp [hn, htaglen]
      omega
    rw [h1]
    exact List.take_left' rfl
  simp only [clientDecryptPayload, encryptPayload]
  rw [← hkey, ← hks, ← hct, ← htag, hblob, hparse_nonce, hparse_tag, hparse_ct]
  rw [if_pos rfl, hctlen, ← hks, hct]
  rw [zipXor_zipXor_cancel _ _ (by omega)]

/-! ## HMAC request signatures

`hmac.new(psk, message, sha256).hexdigest()` is the external primitive,
a function parameter `hmacHex : psk → message bytes → hex digest`.
`hmac.compare_digest` on equal-type strings is, functionally, equality
(its constant-time execution is a timing property outside the model). -/

/-- Python `hmac.compare_digest(a, b)` for strings. -/
def compareDigest (a b : String) : Bool := a == b

/-- Client `BootstrapClient._create_signature` (simplified, no timestamp):
HMAC-SHA256 hex digest of the data string under the PSK. -/
def createSignature (hmacHex : List Nat → List Nat → String)
    (psk : List Nat) (data : String) : String :=
  hmacHex psk (utf8Bytes data)

/-- Simplified `SecurityManager.verify_signature` (core.py): recompute
the expected digest and compare, with no timestamp validation. -/
def verifySignature (hmacHex : List Nat → List Nat → String)
    (psk : List Nat) (data signature : String) : Bool :=
  compareDigest signature (hmacHex psk (utf8Bytes data))

/-- Server `SecurityManager.verify_signature` (security.py, replay-window
variant): reject outright when `abs(now - timestamp) > window_seconds`,
otherwise compare against HMAC-SHA256 over `f"{data}:{timestamp}"`. -/
def verifySignatureTs (hmacHex : List Nat → List Nat → String)
    (psk : List Nat) (now : Int) (data signature : String)
    (timestamp window : Int) : Bool :=
  if window < |now - timestamp| then false
  else compareDigest signature (hmacHex psk (utf8Bytes (data ++ ":" ++ toString timestamp)))

/-- Server `SecurityManager.create_signature` (security.py): signature over
`f"{data}:{timestamp}"` together with the timestamp it covers. -/
def createSignatureTs (hmacHex : List Nat → List Nat → String)
    (psk : List Nat) (data : String) (timestamp : Int) : String × Int :=
  (hmacHex psk (utf8Bytes (data ++ ":" ++ toString timestamp)), timestamp)

/-- Function `verify_registration_request`: signature over `f"{serial}:{mac}"`. -/
def verifyRegistrationRequest (hmacHex : List Nat → List Nat → String)
    (psk : List Nat) (now : Int) (serial mac signature : String)
    (timestamp window : Int) : Bool :=
  verifySignatureTs hmacHex psk now (serial ++ ":" ++ mac) signature timestamp window

/-- Function `verify_confirmation_request`: signature over `f"{serial}:{hostname}"`. -/
def verifyConfirmationRequest (hmacHex : List Nat → List Nat → String)
    (psk : List Nat) (now : Int) (serial hostname signature : String)
    (timestamp window : Int) : Bool :=
  verifySignatureTs hmacHex psk now (serial ++ ":" ++ hostname) signature timestamp window

/-! ## Hostname formatting and the simplified device ledger (core.py) -/

/-- Python `f"{pfx}-{counter:02d}"`: the prefix, a dash, and the counter
zero-padded to at least two digits. -/
def fmtHostname (pfx : String) (counter : Nat) : String :=
  pfx ++ "-" ++ (if counter < 10 then "0" ++ toString counter else toString counter)

/-- Byte-wise (SQLite BINARY collation) strict order on char lists. -/
def charListLt : List Char → List Char → Bool
  | [], [] => false
  | [], _ :: _ => true
  | _ :: _, [] => false
  | a :: as, b :: bs =>
      if a.toNat < b.toNat then true
      else if b.toNat < a.toNat then false
      else charListLt as bs

/-- Strict string order used by `ORDER BY hostname DESC`. -/
def strLtB (a b : String) : Bool := charListLt a.toList b.toList

/-- Query `ORDER BY hostname DESC LIMIT 1`: the maximal string of the list. -/
def maxHostname (l : List String) : Option String :=
  l.foldl
    (fun acc h =>
      match acc with
      | none => some h
      | some m => if strLtB m h then some h else some m)
    none

/-- Char-list prefix test (the `LIKE 'pfx-%'` pattern match). -/
def isPrefixCharList : List Char → List Char → Bool
  | [], _ => true
  | _ :: _, [] => false
  | a :: as, b :: bs => a == b && isPrefixCharList as bs

/-- Query `hostname LIKE ?` with the pattern `f"{pfx}-%"`. -/
def likeMatches (pfx h : String) : Bool :=
  isPrefixCharList (pfx ++ "-").toList h.toList

/-- The piece of a string after its final dash: Python's
`s.split('-')[-1]` (the whole string when there is no dash). -/
def lastDashSuffix (cs : List Char) : List Char :=
  (cs.reverse.takeWhile (fun c => c != '-')).reverse

/-- Python `int(s)` on the dash-free piece: all-digits strings parse,
anything else raises `ValueError` (here: `none`). -/
def parseNatDigits (cs : List Char) : Option Nat :=
  if cs.isEmpty then none
  else if cs.all (fun c => c.isDigit) then
    some (cs.foldl (fun a c => a * 10 + (c.toNat - 48)) 0)
  else none

/-- Simplified `DatabaseManager.get_next_hostname` (core.py): take the
lexicographically last hostname `LIKE 'pfx-%'`, parse the substring
after the final dash as an integer and add one (falling back to 1 on a
parse failure or an empty table), and format zero-padded. -/
def getNextHostnameSimple (hostnames : List String) (pfx : String) : String :=
  match maxHostname (hostnames.filter (fun h => likeMatches pfx h)) with
  | none => fmtHostname pfx 1
  | some last =>
    match parseNatDigits (lastDashSuffix last.toList) with
    | some n => fmtHostname pfx (n + 1)
    | none => fmtHostname pfx 1

/-- A row of the simplified `registrations` table. -/
structure Device where
  serial : String
  mac : String
  hostname : String
  registeredAt : Int
  confirmedAt : Option Int
  status : String
deriving DecidableEq, Repr

/-- Simplified `DatabaseManager.register_device`: INSERT, which fails
(integrity error, returning `False`) iff the UNIQUE `serial` or
`hostname` column is violated; fresh rows start with `confirmed_at`
NULL and status `'pending'`. -/
def registerDevice (devs : List Device) (serial mac hostname : String)
    (now : Int) : List Device × Bool :=
  if devs.any (fun d => d.serial == serial || d.hostname == hostname) then
    (devs, false)
  else
    (devs ++ [⟨serial, mac, hostname, now, none, "pending"⟩], true)

/-- Simplified `DatabaseManager.confirm_device`: set `confirmed_at` to
the current time and `status` to the client-supplied string on every row
whose serial matches; report whether any row matched. -/
def confirmDevice (devs : List Device) (serial status : String)
    (now : Int) : List Device × Bool :=
  (devs.map (fun d =>
      if d.serial == serial then { d with confirmedAt := some now, status := status } else d),
   devs.any (fun d => d.serial == serial))

/-- Simplified `DatabaseManager.get_statistics`. -/
structure Stats where
  totalRegistrations : Nat
  confirmedDevices : Nat
  lastRegistration : Option Int
deriving DecidableEq, Repr

/-- Function `get_statistics`: COUNT(*), COUNT of rows with `confirmed_at` NOT
NULL, and the latest `registered_at`. -/
def getStatistics (devs : List Device) : Stats :=
  { totalRegistrations := devs.length
    confirmedDevices := (devs.filter (fun d => d.confirmedAt.isSome)).length
    lastRegistration := (devs.map (fun d => d.registeredAt)).max? }

/-! ### Ledger operation sequences -/

/-- A ledger mutation: a `register_device` or a `confirm_device` call. -/
inductive LedgerOp where
  | reg (serial mac hostname : String) (now : Int)
  | conf (serial status : String) (now : Int)
deriving DecidableEq, Repr

/-- Apply one ledger operation. -/
def applyOp (devs : List Device) : LedgerOp → List Device
  | .reg s m h t => (registerDevice devs s m h t).1
  | .conf s st t => (confirmDevice devs s st t).1

/-- Apply a sequence of ledger operations in order. -/
def applyOps (devs : List Device) (ops : List LedgerOp) : List Device :=
  ops.foldl applyOp devs

/-- Is a serial present in the ledger? -/
def registeredB (devs : List Device) (serial : String) : Bool :=
  devs.any (fun d => d.serial == serial)

/-- Did some operation of `ops`, run from state `devs`, confirm `serial`
while it was registered (i.e. run confirmation effectively)? -/
def wasConfirmed (devs : List Device) : List LedgerOp → String → Bool
  | [], _ => false
  | op :: rest, serial =>
      (match op with
       | .conf s _ _ => s == serial && registeredB devs s
       | _ => false) || wasConfirmed (applyOp devs op) rest serial

/-! ### Sequential allocation run for the simplified allocator

`allocRun n` performs `n` rounds of `get_next_hostname("sensor")`
followed by `register_device` (distinct serials), starting from an empty
ledger, returning the final ledger and the list of returned hostnames. -/

/-- The `hostname` column of the simplified table. -/
def hostnameColumn (devs : List Device) : List String := devs.map (fun d => d.hostname)

/-- Run `n` rounds of allocate-then-register with prefix `"sensor"`. -/
def allocRun : Nat → List Device × List String
  | 0 => ([], [])
  | n + 1 =>
    match allocRun n with
    | (devs, trace) =>
      let h := getNextHostnameSimple (hostnameColumn devs) "sensor"
      ((registerDevice devs (toString n) "aa:bb" h 0).1, trace ++ [h])

/-! ## Full-variant ledger, request log and the `/register` handler

`database.original.py` keeps a dedicated `hostname_counter` table and a
`request_log` table; `main.py` composes signature verification, the
per-device rate limit, idempotent hostname reuse, allocation+insert and
payload encryption. -/

/-- A row of the full `registrations` table. -/
structure FullDevice where
  serial : String
  mac : String
  hostname : String
  ipAddress : Option String
  registeredAt : Int
  confirmedAt : Option Int
  bootstrapStatus : String
  errorMessage : Option String
  requestCount : Nat
deriving DecidableEq, Repr

/-- A row of the `request_log` table. -/
structure LogEntry where
  ipAddress : String
  serial : Option String
  endpoint : String
  success : Bool
  errorMessage : Option String
  time : Int
deriving DecidableEq, Repr

/-- The full-variant persistent state: `registrations`,
`hostname_counter` and `request_log` tables. -/
structure ServerState where
  devices : List FullDevice
  counters : List (String × Nat)
  requestLog : List LogEntry
deriving DecidableEq, Repr

/-- Query `SELECT counter FROM hostname_counter WHERE prefix = ?`. -/
def lookupCounter (cs : List (String × Nat)) (p : String) : Option Nat :=
  (cs.find? (fun e => e.1 == p)).map (fun e => e.2)

/-- Statement `INSERT OR REPLACE INTO hostname_counter`. -/
def setCounter (cs : List (String × Nat)) (p : String) (c : Nat) : List (String × Nat) :=
  cs.filter (fun e => e.1 != p) ++ [(p, c)]

/-- Full `DatabaseManager.get_next_hostname`: increment (or initialize
to 1) the per-prefix counter row and format the hostname. -/
def getNextHostnameFull (cs : List (String × Nat)) (pfx : String) :
    String × List (String × Nat) :=
  let counter :=
    match lookupCounter cs pfx with
    | some c => c + 1
    | none => 1
  (fmtHostname pfx counter, setCounter cs pfx counter)

/-- Full `DatabaseManager.register_device`: INSERT; on an integrity
error (duplicate serial or hostname) instead bump `request_count` and
COALESCE the ip address of the row with this serial, returning `False`. -/
def registerDeviceFull (devs : List FullDevice) (serial mac hostname : String)
    (ip : Option String) (now : Int) : List FullDevice × Bool :=
  if devs.any (fun d => d.serial == serial || d.hostname == hostname) then
    (devs.map (fun d =>
        if d.serial == serial then
          { d with
            requestCount := d.requestCount + 1
            ipAddress := match ip with | some i => some i | none => d.ipAddress }
        else d),
     false)
  else
    (devs ++ [⟨serial, mac, hostname, ip, now, none, "pending", none, 1⟩], true)

/-- Full `DatabaseManager.confirm_device`. -/
def confirmDeviceFull (devs : List FullDevice) (serial status : String)
    (errMsg : Option String) (now : Int) : List FullDevice × Bool :=
  (devs.map (fun d =>
      if d.serial == serial then
        { d with confirmedAt := some now, bootstrapStatus := status, errorMessage := errMsg }
      else d),
   devs.any (fun d => d.serial == serial))

/-- Full `DatabaseManager.get_device_by_serial`. -/
def getDeviceBySerial (devs : List FullDevice) (serial : String) : Option FullDevice :=
  devs.find? (fun d => d.serial == serial)

/-- Full `DatabaseManager.log_request`: append one row to `request_log`. -/
def logRequest (log : List LogEntry) (ip : String) (endpoint : String)
    (success : Bool) (serial : Option String) (err : Option String)
    (now : Int) : List LogEntry :=
  log ++ [⟨ip, serial, endpoint, success, err, now⟩]

/-- Full `DatabaseManager.get_device_request_count`: count of `request_log`
rows with this serial newer than `now - minutes`. -/
def getDeviceRequestCount (log : List LogEntry) (serial : String)
    (minutes : Int) (now : Int) : Nat :=
  (log.filter (fun e => e.serial == some serial && decide (now - minutes * 60 < e.time))).length

/-- The configuration the `/register` handler reads: PSK bytes,
signature window, per-device rate ceiling, deployment name (the
hostname prefix) and the serialized secret bundle
`json.dumps({netbird_setup_key, ssh_keys, timestamp}).encode()` as a
function of the current time (the JSON codec is Python's standard
library). -/
structure HandlerConfig where
  pskBytes : List Nat
  signatureWindowSeconds : Int
  maxRequestsPerDevice : Nat
  deploymentName : String
  configPlaintext : Int → List Nat

/-- Outcome of a `/register` request: 200 with the response fields,
401, or 429. -/
inductive RegOutcome where
  | ok (hostname : String) (encryptedConfig : String)
  | unauthorized
  | rateLimited
deriving DecidableEq, Repr

/-- The `/register` handler of `main.py`: verify the signature (401 on
failure, logging the attempt), check the per-device rate limit (429,
logging), then either reuse the hostname of an already-registered
serial or allocate the next hostname and insert the row, and in both
success paths encrypt the configuration bundle for the device and log
success.  `now` is the current time and `nonce` the 12 random bytes
drawn for GCM. -/
def handleRegister (hmacHex : List Nat → List Nat → String)
    (aesEnc scrypt : List Nat → List Nat → List Nat)
    (cfg : HandlerConfig) (st : ServerState)
    (clientIp serial mac signature : String) (timestamp : Int)
    (now : Int) (nonce : List Nat) : RegOutcome × ServerState :=
  if verifyRegistrationRequest hmacHex cfg.pskBytes now serial mac signature
      timestamp cfg.signatureWindowSeconds = false then
    (.unauthorized,
     { st with
       requestLog := logRequest st.requestLog clientIp "/register" false
         (some serial) (some "Invalid signature") now })
  else if cfg.maxRequestsPerDevice ≤ getDeviceRequestCount st.requestLog serial 60 now then
    (.rateLimited,
     { st with
       requestLog := logRequest st.requestLog clientIp "/register" false
         (some serial) (some "Rate limit exceeded") now })
  else
    match getDeviceBySerial st.devices serial with
    | some d =>
      (.ok d.hostname
         (encryptPayload aesEnc scrypt cfg.pskBytes (cfg.configPlaintext now) serial nonce),
       { st with
         requestLog := logRequest st.requestLog clientIp "/register" true (some serial) none now })
    | none =>
      let alloc := getNextHostnameFull st.counters cfg.deploymentName
      (.ok alloc.1
         (encryptPayload aesEnc scrypt cfg.pskBytes (cfg.configPlaintext now) serial nonce),
       { devices := (registerDeviceFull st.devices serial mac alloc.1 (some clientIp) now).1
         counters := alloc.2
         requestLog := logRequest st.requestLog clientIp "/register" true (some serial) none now })

/-! ## Claim theorems -/

/-- C3: Encrypt/decrypt round-trip across independently derived keys:
for every (serialized) payload and every device serial, decrypting the
blob produced by the server's `encrypt_payload` — using the key the
client independently re-derives from the same (PSK, serial) pair via
`_derive_device_key` and parsing the blob as
base64(nonce(12B) ‖ ciphertext ‖ tag(16B)) — returns exactly the
original payload.  Holds for every block cipher `aesEnc` and every KDF
`scrypt`, every PSK and every 12-byte random nonce. -/
theorem c3_encrypt_decrypt_roundtrip
    (aesEnc scrypt : List Nat → List Nat → List Nat)
    (hlen : ∀ k b, (aesEnc k b).length = 16)
    (hval : ∀ k b, ∀ x ∈ aesEnc k b, x < 256)
    (psk plaintext : List Nat) (serial : String) (nonce : List Nat)
    (hpt : ∀ b ∈ plaintext, b < 256)
    (hn : nonce.length = 12) (hnv : ∀ b ∈ nonce, b < 256) :
    clientDecryptPayload aesEnc scrypt psk
      (encryptPayload aesEnc scrypt psk plaintext serial nonce) serial
      = some plaintext :=
  encrypt_decrypt_roundtrip aesEnc scrypt hlen hval psk plaintext serial nonce hpt hn hnv

/-- Witness for C3 at a concrete payload, serial, nonce and concrete
instances of the external primitives. -/
theorem c3_encrypt_decrypt_roundtrip_witness :
    clientDecryptPayload (fun _ _ => List.replicate 16 7) (fun _ _ => List.replicate 32 0)
      [112, 115, 107]
      (encryptPayload (fun _ _ => List.replicate 16 7) (fun _ _ => List.replicate 32 0)
        [112, 115, 107] [10, 20, 30] "dev-A" (List.replicate 12 5)) "dev-A"
      = some [10, 20, 30] :=
  c3_encrypt_decrypt_roundtrip (fun _ _ => List.replicate 16 7) (fun _ _ => List.replicate 32 0)
    (fun _ _ => by simp)
    (fun _ _ x hx => by have := List.eq_of_mem_replicate hx; omega)
    [112, 115, 107] [10, 20, 30] "dev-A" (List.replicate 12 5)
    (by decide)
    (by simp)
    (fun b hb => by have := List.eq_of_mem_replicate hb; omega)

/-- C9: Derived-key collision at the interface: for any two distinct
device serials whose UTF-8 encodings become identical after
right-padding with zero bytes or truncation to exactly 32 bytes,
`derive_device_key` returns the same key, so a payload encrypted for one
of them decrypts successfully under the other's derived key. -/
theorem c9_salt_collision
    (aesEnc scrypt : List Nat → List Nat → List Nat)
    (hlen : ∀ k b, (aesEnc k b).length = 16)
    (hval : ∀ k b, ∀ x ∈ aesEnc k b, x < 256)
    (psk plaintext : List Nat) (s1 s2 : String) (nonce : List Nat)
    (hne : s1 ≠ s2) (hsalt : scryptSalt s1 = scryptSalt s2)
    (hpt : ∀ b ∈ plaintext, b < 256)
    (hn : nonce.length = 12) (hnv : ∀ b ∈ nonce, b < 256) :
    deriveDeviceKey scrypt psk s1 = deriveDeviceKey scrypt psk s2 ∧
    clientDecryptPayload aesEnc scrypt psk
      (encryptPayload aesEnc scrypt psk plaintext s1 nonce) s2
      = some plaintext := by
  have hkey : deriveDeviceKey scrypt psk s1 = deriveDeviceKey scrypt psk s2 := by
    unfold deriveDeviceKey
    rw [hsalt]
  refine ⟨hkey, ?_⟩
  have hdec : ∀ blob, clientDecryptPayload aesEnc scrypt psk blob s2
      = clientDecryptPayload aesEnc scrypt psk blob s1 := by
    intro blob
    unfold clientDecryptPayload
    rw [hkey]
  rw [hdec]
  exact encrypt_decrypt_roundtrip aesEnc scrypt hlen hval psk plaintext s1 nonce hpt hn hnv

/-- Witness for C9: the serial `"abc"` and the distinct serial
`"abc\x00"` (a trailing NUL) share the padded 32-byte salt, and a
payload encrypted for the first decrypts under the second. -/
theorem c9_salt_collision_witness :
    deriveDeviceKey (fun _ _ => List.replicate 32 0) [112] "abc"
      = deriveDeviceKey (fun _ _ => List.replicate 32 0) [112] "abc\x00" ∧
    clientDecryptPayload (fun _ _ => List.replicate 16 7) (fun _ _ => List.replicate 32 0)
      [112] (encryptPayload (fun _ _ => List.replicate 16 7) (fun _ _ => List.replicate 32 0)
        [112] [42] "abc" (List.replicate 12 9)) "abc\x00"
      = some [42] :=
  c9_salt_collision (fun _ _ => List.replicate 16 7) (fun _ _ => List.replicate 32 0)
    (fun _ _ => by simp)
    (fun _ _ x hx => by have := List.eq_of_mem_replicate hx; omega)
    [112] [42] "abc" "abc\x00" (List.replicate 12 9)
    (by decide)
    (by decide)
    (by decide)
    (by simp)
    (fun b hb => by have := List.eq_of_mem_replicate hb; omega)

/-- C6: Signature round-trip and tamper rejection (simplified variant):
for every PSK and every data string, verifying the signature produced by
the client's `_create_signature` over that data returns true, and
verifying any signature string that differs from it (in at least one
character) returns false.  Holds for every HMAC primitive `hmacHex`. -/
theorem c6_signature_roundtrip (hmacHex : List Nat → List Nat → String)
    (psk : List Nat) (data : String) :
    verifySignature hmacHex psk data (createSignature hmacHex psk data) = true ∧
    ∀ s : String, s ≠ createSignature hmacHex psk data →
      verifySignature hmacHex psk data s = false := by
  constructor
  · simp [verifySignature, createSignature, compareDigest]
  · intro s hs
    simpa [verifySignature, createSignature, compareDigest] using hs

/-- Witness for C6 at a concrete PSK, data string and HMAC instance,
with a concrete tampered signature. -/
theorem c6_signature_roundtrip_witness :
    verifySignature (fun _ _ => "e3b0") [112] "dev-A:aa:bb"
      (createSignature (fun _ _ => "e3b0") [112] "dev-A:aa:bb") = true ∧
    verifySignature (fun _ _ => "e3b0") [112] "dev-A:aa:bb" "e3b1" = false :=
  ⟨(c6_signature_roundtrip (fun _ _ => "e3b0") [112] "dev-A:aa:bb").1,
   (c6_signature_roundtrip (fun _ _ => "e3b0") [112] "dev-A:aa:bb").2 "e3b1" (by decide)⟩

/-- C7: Replay window: `verify_signature(data, signature, timestamp,
window_seconds)` returns false whenever |now - timestamp| >
window_seconds regardless of HMAC correctness — in particular a
correctly-HMAC'd signature whose embedded timestamp is
window_seconds + 1 seconds old is rejected — and a correct signature
with |now - timestamp| ≤ window_seconds is accepted. -/
theorem c7_replay_window (hmacHex : List Nat → List Nat → String)
    (psk : List Nat) (now : Int) (data s : String) (ts window : Int) :
    (window < |now - ts| → verifySignatureTs hmacHex psk now data s ts window = false) ∧
    (now - ts = window + 1 →
      verifySignatureTs hmacHex psk now data
        (createSignatureTs hmacHex psk data ts).1 ts window = false) ∧
    (|now - ts| ≤ window →
      verifySignatureTs hmacHex psk now data
        (createSignatureTs hmacHex psk data ts).1 ts window = true) := by
  refine ⟨fun h => ?_, fun h => ?_, fun h => ?_⟩
  · simp [verifySignatureTs, if_pos h]
  · have habs : window < |now - ts| := by
      rw [h]
      rcases le_or_lt 0 (window + 1) with h0 | h0
      · rw [abs_of_nonneg h0]; omega
      · rw [abs_of_neg h0]; omega
    simp [verifySignatureTs, if_pos habs]
  · rw [verifySignatureTs, if_neg (by omega), createSignatureTs]
    simp [compareDigest]

/-- Witness for C7: with a 300-second window, a stale timestamp (301
seconds old) is rejected even with the correct HMAC, and a fresh correct
signature is accepted. -/
theorem c7_replay_window_witness :
    (verifySignatureTs (fun _ _ => "e3b0") [112] 1000 "d:m"
      (createSignatureTs (fun _ _ => "e3b0") [112] "d:m" 699).1 699 300 = false) ∧
    (verifySignatureTs (fun _ _ => "e3b0") [112] 1000 "d:m" "zzzz" 600 300 = false) ∧
    (verifySignatureTs (fun _ _ => "e3b0") [112] 1000 "d:m"
      (createSignatureTs (fun _ _ => "e3b0") [112] "d:m" 900).1 900 300 = true) :=
  ⟨(c7_replay_window (fun _ _ => "e3b0") [112] 1000 "d:m" "x" 699 300).2.1 (by decide),
   (c7_replay_window (fun _ _ => "e3b0") [112] 1000 "d:m" "zzzz" 600 300).1 (by decide),
   (c7_replay_window (fun _ _ => "e3b0") [112] 1000 "d:m" "x" 900 300).2.2 (by decide)⟩

/-- C8: Authentication failure leaves the ledger unchanged: for every
registration request whose signature fails verification, the outcome is
an authentication rejection (401-equivalent), no device record is
created, and the next hostname allocation for any prefix returns the
same value it would have returned before the request (only the request
log gains the failure row). -/
theorem c8_auth_failure_no_mutation
    (hmacHex : List Nat → List Nat → String)
    (aesEnc scrypt : List Nat → List Nat → List Nat)
    (cfg : HandlerConfig) (st : ServerState)
    (clientIp serial mac s : String) (ts now : Int) (nonce : List Nat)
    (hfail : verifyRegistrationRequest hmacHex cfg.pskBytes now serial mac s
      ts cfg.signatureWindowSeconds = false) :
    (handleRegister hmacHex aesEnc scrypt cfg st clientIp serial mac s ts now nonce).1
        = RegOutcome.unauthorized ∧
    (handleRegister hmacHex aesEnc scrypt cfg st clientIp serial mac s ts now nonce).2.devices
        = st.devices ∧
    (handleRegister hmacHex aesEnc scrypt cfg st clientIp serial mac s ts now nonce).2.counters
        = st.counters ∧
    ∀ pfx,
      (getNextHostnameFull
        (handleRegister hmacHex aesEnc scrypt cfg st clientIp serial mac s ts now nonce).2.counters
        pfx).1
      = (getNextHostnameFull st.counters pfx).1 := by
  simp [handleRegister, hfail]

/-- Witness for C8: a concrete bad-signature request is rejected as
unauthorized with devices, counters and next-hostname untouched. -/
theorem c8_auth_failure_no_mutation_witness :
    ((handleRegister (fun _ _ => "e3b0") (fun _ _ => List.replicate 16 0) (fun _ _ => [])
        ⟨[112], 300, 3, "sensor", fun _ => [1]⟩ ⟨[], [], []⟩
        "10.0.0.9" "s1" "aa:bb" "WRONG" 0 0 (List.replicate 12 0)).1
      = RegOutcome.unauthorized) ∧
    ((handleRegister (fun _ _ => "e3b0") (fun _ _ => List.replicate 16 0) (fun _ _ => [])
        ⟨[112], 300, 3, "sensor", fun _ => [1]⟩ ⟨[], [], []⟩
        "10.0.0.9" "s1" "aa:bb" "WRONG" 0 0 (List.replicate 12 0)).2.devices = []) ∧
    ((handleRegister (fun _ _ => "e3b0") (fun _ _ => List.replicate 16 0) (fun _ _ => [])
        ⟨[112], 300, 3, "sensor", fun _ => [1]⟩ ⟨[], [], []⟩
        "10.0.0.9" "s1" "aa:bb" "WRONG" 0 0 (List.replicate 12 0)).2.counters = []) :=
  have h := c8_auth_failure_no_mutation (fun _ _ => "e3b0")
    (fun _ _ => List.replicate 16 0) (fun _ _ => [])
    ⟨[112], 300, 3, "sensor", fun _ => [1]⟩ ⟨[], [], []⟩
    "10.0.0.9" "s1" "aa:bb" "WRONG" 0 0 (List.replicate 12 0) (by decide)
  ⟨h.1, h.2.1, h.2.2.1⟩

/-! ### Handler inversion for successful registrations -/

theorem getDeviceBySerial_append_self (devs : List FullDevice) (serial : String)
    (hnone : getDeviceBySerial devs serial = none) (d : FullDevice)
    (hd : d.serial = serial) :
    getDeviceBySerial (devs ++ [d]) serial = some d := by
  unfold getDeviceBySerial at *
  rw [List.find?_append, hnone]
  simp [hd]

theorem registerDeviceFull_fresh (devs : List FullDevice) (serial mac hostname : String)
    (ip : Option String) (now : Int)
    (hser : getDeviceBySerial devs serial = none)
    (hhost : ∀ d ∈ devs, d.hostname ≠ hostname) :
    (registerDeviceFull devs serial mac hostname ip now).1
      = devs ++ [⟨serial, mac, hostname, ip, now, none, "pending", none, 1⟩] := by
  have hany : devs.any (fun d => d.serial == serial || d.hostname == hostname) = false := by
    rw [List.any_eq_false]
    intro d hd
    have hall : ∀ x ∈ devs, ¬x.serial = serial := by
      simpa [getDeviceBySerial] using hser
    simp [hall d hd, hhost d hd]
  simp [registerDeviceFull, hany]

/-- When the `/register` handler answers 200, either the serial was
already registered and its stored hostname was reused with no table
mutation, or the serial was fresh, the hostname was allocated from the
counter and the row inserted. -/
theorem handleRegister_ok_inversion
    (hmacHex : List Nat → List Nat → String)
    (aesEnc scrypt : List Nat → List Nat → List Nat)
    (cfg : HandlerConfig) (st : ServerState)
    (clientIp serial mac s : String) (ts now : Int) (nonce : List Nat)
    (h : String) (e : String) (st' : ServerState)
    (hcall : handleRegister hmacHex aesEnc scrypt cfg st clientIp serial mac s ts now nonce
      = (RegOutcome.ok h e, st')) :
    (∃ d, getDeviceBySerial st.devices serial = some d ∧ h = d.hostname ∧
      st'.devices = st.devices ∧ st'.counters = st.counters) ∨
    (getDeviceBySerial st.devices serial = none ∧
      h = (getNextHostnameFull st.counters cfg.deploymentName).1 ∧
      st'.devices = (registerDeviceFull st.devices serial mac h (some clientIp) now).1 ∧
      st'.counters = (getNextHostnameFull st.counters cfg.deploymentName).2) := by
  unfold handleRegister at hcall
  split at hcall
  · simp at hcall
  · split at hcall
    · simp at hcall
    · cases hfind : getDeviceBySerial st.devices serial with
      | some d =>
        rw [hfind] at hcall
        simp only [Prod.mk.injEq, RegOutcome.ok.injEq] at hcall
        left
        exact ⟨d, rfl, hcall.1.1.symm, by rw [← hcall.2], by rw [← hcall.2]⟩
      | none =>
        rw [hfind] at hcall
        simp only [Prod.mk.injEq, RegOutcome.ok.injEq] at hcall
        right
        refine ⟨rfl, hcall.1.1.symm, ?_, ?_⟩
        · rw [← hcall.2, hcall.1.1]
        · rw [← hcall.2]

/-- C2: Registration is idempotent in the hostname: a valid registration
request for a serial already present in the ledger returns the hostname
already stored for it, allocates no new hostname and does not advance
the per-prefix counter; and registering the same serial twice (through
the handler, in a ledger whose freshly allocated hostname is unused, as
counter allocation guarantees) returns the same hostname both times with
no table or counter change on the second call. -/
theorem c2_idempotent_registration
    (hmacHex : List Nat → List Nat → String)
    (aesEnc scrypt : List Nat → List Nat → List Nat)
    (cfg : HandlerConfig) (st : ServerState)
    (clientIp serial mac s : String) (ts now : Int) (nonce : List Nat) :
    (∀ d, getDeviceBySerial st.devices serial = some d →
      verifyRegistrationRequest hmacHex cfg.pskBytes now serial mac s ts
        cfg.signatureWindowSeconds = true →
      getDeviceRequestCount st.requestLog serial 60 now < cfg.maxRequestsPerDevice →
      handleRegister hmacHex aesEnc scrypt cfg st clientIp serial mac s ts now nonce
        = (RegOutcome.ok d.hostname
            (encryptPayload aesEnc scrypt cfg.pskBytes (cfg.configPlaintext now) serial nonce),
          { st with requestLog :=
              logRequest st.requestLog clientIp "/register" true (some serial) none now })) ∧
    (∀ (clientIp₂ mac₂ s₂ : String) (ts₂ now₂ : Int) (nonce₂ : List Nat)
      (h₁ e₁ : String) (st₁ : ServerState) (h₂ e₂ : String) (st₂ : ServerState),
      (∀ d ∈ st.devices, d.hostname ≠ (getNextHostnameFull st.counters cfg.deploymentName).1) →
      handleRegister hmacHex aesEnc scrypt cfg st clientIp serial mac s ts now nonce
        = (RegOutcome.ok h₁ e₁, st₁) →
      handleRegister hmacHex aesEnc scrypt cfg st₁ clientIp₂ serial mac₂ s₂ ts₂ now₂ nonce₂
        = (RegOutcome.ok h₂ e₂, st₂) →
      h₂ = h₁ ∧ st₂.devices = st₁.devices ∧ st₂.counters = st₁.counters) := by
  constructor
  · intro d hfound hver hrate
    unfold handleRegister
    rw [hver, hfound]
    rw [if_neg (by simp), if_neg (by omega)]
  · intro clientIp₂ mac₂ s₂ ts₂ now₂ nonce₂ h₁ e₁ st₁ h₂ e₂ st₂ hfresh hcall₁ hcall₂
    rcases handleRegister_ok_inversion hmacHex aesEnc scrypt cfg st clientIp serial mac s
        ts now nonce h₁ e₁ st₁ hcall₁ with
      ⟨d, hfind, hh₁, hdev₁, _⟩ | ⟨hser, hh₁, hdev₁, _⟩
    · rcases handleRegister_ok_inversion hmacHex aesEnc scrypt cfg st₁ clientIp₂ serial mac₂ s₂
          ts₂ now₂ nonce₂ h₂ e₂ st₂ hcall₂ with
        ⟨d₂, hfind₂, hh₂, hdev₂, hcnt₂⟩ | ⟨hser₂, _, _, _⟩
      · rw [hdev₁, hfind] at hfind₂
        cases hfind₂
        exact ⟨by rw [hh₂, hh₁], hdev₂, hcnt₂⟩
      · rw [hdev₁, hfind] at hser₂
        cases hser₂
    · have hins : st₁.devices
          = st.devices ++ [⟨serial, mac, h₁, some clientIp, now, none, "pending", none, 1⟩] := by
        rw [hdev₁]
        exact registerDeviceFull_fresh st.devices serial mac h₁ (some clientIp) now hser
          (by rw [hh₁]; exact hfresh)
      have hfind₁ : getDeviceBySerial st₁.devices serial
          = some ⟨serial, mac, h₁, some clientIp, now, none, "pending", none, 1⟩ := by
        rw [hins]
        exact getDeviceBySerial_append_self st.devices serial hser _ rfl
      rcases handleRegister_ok_inversion hmacHex aesEnc scrypt cfg st₁ clientIp₂ serial mac₂ s₂
          ts₂ now₂ nonce₂ h₂ e₂ st₂ hcall₂ with
        ⟨d₂, hfind₂, hh₂, hdev₂, hcnt₂⟩ | ⟨hser₂, _, _, _⟩
      · rw [hfind₁] at hfind₂
        cases hfind₂
        exact ⟨by rw [hh₂], hdev₂, hcnt₂⟩
      · rw [hfind₁] at hser₂
        cases hser₂

/-- Concrete HMAC instance for witnesses. -/
def hmacC : List Nat → List Nat → String := fun _ _ => "e3b0"

/-- Concrete block-cipher instance for witnesses. -/
def aesC : List Nat → List Nat → List Nat := fun _ _ => List.replicate 16 0

/-- Concrete KDF instance for witnesses. -/
def scryptC : List Nat → List Nat → List Nat := fun _ _ => List.replicate 32 0

/-- Concrete GCM nonce for witnesses. -/
def nonceC : List Nat := List.replicate 12 0

/-- Concrete handler configuration for witnesses: PSK bytes, 300 s
window, 3 requests per device per hour, deployment name `"sensor"`. -/
def cfgC : HandlerConfig := ⟨[112], 300, 3, "sensor", fun _ => [1, 2]⟩

/-- Witness for C2: from an empty ledger, a first registration of
serial `"s1"` yields `"sensor-01"`, and an immediate re-registration of
the same serial yields the same hostname with no table or counter
change; moreover a valid request for an already-present serial answers
its stored hostname directly. -/
theorem c2_idempotent_registration_witness :
    (handleRegister hmacC aesC scryptC cfgC
        ⟨[⟨"s1", "aa", "sensor-01", some "ip", 0, none, "pending", none, 1⟩],
         [("sensor", 1)], []⟩
        "ip" "s1" "aa" "e3b0" 0 0 nonceC
      = (RegOutcome.ok "sensor-01" (encryptPayload aesC scryptC [112] [1, 2] "s1" nonceC),
         ⟨[⟨"s1", "aa", "sensor-01", some "ip", 0, none, "pending", none, 1⟩],
          [("sensor", 1)], [⟨"ip", some "s1", "/register", true, none, 0⟩]⟩)) ∧
    ("sensor-01" = "sensor-01" ∧
     [FullDevice.mk "s1" "aa" "sensor-01" (some "ip") 0 none "pending" none 1]
       = [FullDevice.mk "s1" "aa" "sensor-01" (some "ip") 0 none "pending" none 1] ∧
     [("sensor", 1)] = [("sensor", 1)]) :=
  ⟨(c2_idempotent_registration hmacC aesC scryptC cfgC
      ⟨[⟨"s1", "aa", "sensor-01", some "ip", 0, none, "pending", none, 1⟩],
       [("sensor", 1)], []⟩
      "ip" "s1" "aa" "e3b0" 0 0 nonceC).1
      ⟨"s1", "aa", "sensor-01", some "ip", 0, none, "pending", none, 1⟩
      (by decide) (by decide) (by decide),
   (c2_idempotent_registration hmacC aesC scryptC cfgC ⟨[], [], []⟩
      "ip" "s1" "aa" "e3b0" 0 0 nonceC).2
      "ip" "aa" "e3b0" 0 0 nonceC
      "sensor-01" (encryptPayload aesC scryptC [112] [1, 2] "s1" nonceC)
      ⟨[⟨"s1", "aa", "sensor-01", some "ip", 0, none, "pending", none, 1⟩],
       [("sensor", 1)], [⟨"ip", some "s1", "/register", true, none, 0⟩]⟩
      "sensor-01" (encryptPayload aesC scryptC [112] [1, 2] "s1" nonceC)
      ⟨[⟨"s1", "aa", "sensor-01", some "ip", 0, none, "pending", none, 1⟩],
       [("sensor", 1)],
       [⟨"ip", some "s1", "/register", true, none, 0⟩,
        ⟨"ip", some "s1", "/register", true, none, 0⟩]⟩
      (by simp) rfl rfl⟩

/-- C4 counterexample: the claim says a request from a device at its
rate ceiling is rejected as rate-limited before any cryptographic work;
in the code, signature verification runs first, so a request at the
ceiling with an invalid signature is answered 401 (unauthorized), not
429 (rate-limited). -/
theorem c4_rate_limit_counterexample :
    ((handleRegister hmacC aesC scryptC ⟨[112], 300, 1, "sensor", fun _ => [1, 2]⟩
        ⟨[], [], [⟨"ip", some "s1", "/register", true, none, 0⟩]⟩
        "ip" "s1" "aa" "WRONG" 0 0 nonceC).1 = RegOutcome.unauthorized) ∧
    (1 ≤ getDeviceRequestCount [⟨"ip", some "s1", "/register", true, none, 0⟩] "s1" 60 0) ∧
    ((handleRegister hmacC aesC scryptC ⟨[112], 300, 1, "sensor", fun _ => [1, 2]⟩
        ⟨[], [], [⟨"ip", some "s1", "/register", true, none, 0⟩]⟩
        "ip" "s1" "aa" "WRONG" 0 0 nonceC).1 ≠ RegOutcome.rateLimited) := by
  refine ⟨by decide, by decide, by decide⟩

/-- C4 as amended: after signature verification succeeds, a request
whose device already reached the per-device ceiling within the window is
rejected as rate-limited before any ledger mutation (only the request
log gains the failure row); in particular the (max+1)-th valid attempt
inside the window is rejected. -/
theorem c4_rate_limit_after_auth
    (hmacHex : List Nat → List Nat → String)
    (aesEnc scrypt : List Nat → List Nat → List Nat)
    (cfg : HandlerConfig) (st : ServerState)
    (clientIp serial mac s : String) (ts now : Int) (nonce : List Nat)
    (hver : verifyRegistrationRequest hmacHex cfg.pskBytes now serial mac s ts
      cfg.signatureWindowSeconds = true)
    (hrate : cfg.maxRequestsPerDevice ≤ getDeviceRequestCount st.requestLog serial 60 now) :
    handleRegister hmacHex aesEnc scrypt cfg st clientIp serial mac s ts now nonce
      = (RegOutcome.rateLimited,
         { st with requestLog := logRequest st.requestLog clientIp "/register" false (some serial) (some "Rate limit exceeded") now }) := by
  unfold handleRegister
  rw [hver]
  rw [if_neg (by simp), if_pos hrate]

/-- Witness for C4's amended statement: with ceiling 3, the fourth valid
attempt for the same device within the hour is answered 429 with no
table change. -/
theorem c4_rate_limit_after_auth_witness :
    handleRegister hmacC aesC scryptC cfgC
      ⟨[⟨"s1", "aa", "sensor-01", some "ip", 0, none, "pending", none, 1⟩],
       [("sensor", 1)],
       [⟨"ip", some "s1", "/register", true, none, 0⟩,
        ⟨"ip", some "s1", "/register", true, none, 10⟩,
        ⟨"ip", some "s1", "/register", true, none, 20⟩]⟩
      "ip" "s1" "aa" "e3b0" 30 30 nonceC
      = (RegOutcome.rateLimited,
         ⟨[⟨"s1", "aa", "sensor-01", some "ip", 0, none, "pending", none, 1⟩],
          [("sensor", 1)],
          [⟨"ip", some "s1", "/register", true, none, 0⟩,
           ⟨"ip", some "s1", "/register", true, none, 10⟩,
           ⟨"ip", some "s1", "/register", true, none, 20⟩,
           ⟨"ip", some "s1", "/register", false, some "Rate limit exceeded", 30⟩]⟩) :=
  c4_rate_limit_after_auth hmacC aesC scryptC cfgC
    ⟨[⟨"s1", "aa", "sensor-01", some "ip", 0, none, "pending", none, 1⟩],
     [("sensor", 1)],
     [⟨"ip", some "s1", "/register", true, none, 0⟩,
      ⟨"ip", some "s1", "/register", true, none, 10⟩,
      ⟨"ip", some "s1", "/register", true, none, 20⟩]⟩
    "ip" "s1" "aa" "e3b0" 30 30 nonceC (by decide) (by decide)

/-! ### Device-state lifecycle (C5) -/

/-- Placeholder row used as `getD` default. -/
def dDevice : Device := ⟨"", "", "", 0, none, ""⟩

/-- The operation carries a confirmation status other than `'pending'`
(the documented input domain is `success`/`failure`). -/
def confStatusNotPending : LedgerOp → Prop
  | .conf _ st _ => st ≠ "pending"
  | _ => True

theorem applyOp_length_le (devs : List Device) (op : LedgerOp) :
    devs.length ≤ (applyOp devs op).length := by
  cases op with
  | reg s m h t =>
    simp only [applyOp, registerDevice]
    split
    · exact le_refl _
    · simp
  | conf s st t => simp [applyOp, confirmDevice]

theorem applyOp_getD_status (devs : List Device) (op : LedgerOp) (i : Nat)
    (hi : i < devs.length) (hok : confStatusNotPending op)
    (h : (devs.getD i dDevice).status ≠ "pending") :
    ((applyOp devs op).getD i dDevice).status ≠ "pending" := by
  cases op with
  | reg s m h' t =>
    simp only [applyOp, registerDevice]
    split
    · exact h
    · rw [List.getD_eq_getElem?_getD, List.getElem?_append_left hi,
        ← List.getD_eq_getElem?_getD]
      exact h
  | conf s st t =>
    have hget : devs[i]? = some (devs.getD i dDevice) := by
      rw [List.getD_eq_getElem?_getD, List.getElem?_eq_getElem hi]
      rfl
    have hok' : st ≠ "pending" := by simpa [confStatusNotPending] using hok
    simp only [applyOp, confirmDevice]
    rw [List.getD_eq_getElem?_getD, List.getElem?_map, hget, Option.map_some', Option.getD_some]
    simp only [beq_iff_eq]
    by_cases hs : (devs.getD i dDevice).serial = s
    · rw [if_pos hs]
      exact hok'
    · rw [if_neg hs]
      exact h

/-- C5 as amended: for every sequence of register and confirm
operations whose confirmation statuses stay in the documented domain
(anything but `'pending'`), a record whose status has left `'pending'`
never returns to `'pending'`.  (The code itself does not validate the
status field, so a confirm request carrying the string `'pending'`
does reset the record — see the counterexample.) -/
theorem c5_no_return_to_pending (ops : List LedgerOp) (devs : List Device) (i : Nat)
    (hok : ∀ op ∈ ops, confStatusNotPending op) (hi : i < devs.length)
    (hstat : (devs.getD i dDevice).status ≠ "pending") :
    ((applyOps devs ops).getD i dDevice).status ≠ "pending" := by
  induction ops generalizing devs with
  | nil => simpa [applyOps] using hstat
  | cons op rest ih =>
    have hok₁ : confStatusNotPending op := hok op (by simp)
    have hstep₁ : i < (applyOp devs op).length :=
      Nat.lt_of_lt_of_le hi (applyOp_length_le devs op)
    have hstep₂ : ((applyOp devs op).getD i dDevice).status ≠ "pending" :=
      applyOp_getD_status devs op i hi hok₁ hstat
    have hrw : applyOps devs (op :: rest) = applyOps (applyOp devs op) rest := rfl
    rw [hrw]
    exact ih (applyOp devs op) (fun o ho => hok o (List.mem_cons_of_mem _ ho)) hstep₁ hstep₂

/-- C5 counterexample: the claim as stated fails on the code: a device
whose status is `'success'` is reset to `'pending'` by a confirm
operation carrying the (unvalidated) status string `'pending'`. -/
theorem c5_pending_counterexample :
    ((applyOps [] [LedgerOp.reg "s1" "aa" "sensor-01" 0,
        LedgerOp.conf "s1" "success" 1]).getD 0 dDevice).status = "success" ∧
    ((applyOps [] [LedgerOp.reg "s1" "aa" "sensor-01" 0,
        LedgerOp.conf "s1" "success" 1,
        LedgerOp.conf "s1" "pending" 2]).getD 0 dDevice).status = "pending" := by
  decide

/-- Witness for C5's amended statement at a concrete run: after
register + confirm `'success'` + confirm `'failure'`, the record is not
`'pending'`. -/
theorem c5_no_return_to_pending_witness :
    ((applyOps
        [⟨"s1", "aa", "sensor-01", 0, some 1, "success"⟩]
        [LedgerOp.conf "s1" "failure" 2]).getD 0 dDevice).status ≠ "pending" :=
  c5_no_return_to_pending [LedgerOp.conf "s1" "failure" 2]
    [⟨"s1", "aa", "sensor-01", 0, some 1, "success"⟩] 0
    (by intro op hop; simp at hop; subst hop; simp [confStatusNotPending])
    (by decide) (by decide)

/-! ### Statistics count every confirmation outcome (C10) -/

theorem registeredB_mono (devs : List Device) (op : LedgerOp) (s : String)
    (h : registeredB devs s = true) : registeredB (applyOp devs op) s = true := by
  cases op with
  | reg s' m h' t =>
    simp only [registeredB] at h
    simp only [applyOp, registerDevice]
    split
    · exact h
    · simp only [registeredB, List.any_append, h, Bool.true_or]
  | conf s' st t =>
    simp only [registeredB] at h ⊢
    simp only [applyOp, confirmDevice]
    rcases List.any_eq_true.mp h with ⟨d, hd, hps⟩
    exact List.any_eq_true.mpr ⟨_, List.mem_map_of_mem _ hd, by split <;> exact hps⟩

theorem registeredB_mono_ops (ops : List LedgerOp) (devs : List Device) (s : String)
    (h : registeredB devs s = true) : registeredB (applyOps devs ops) s = true := by
  induction ops generalizing devs with
  | nil => exact h
  | cons op rest ih => exact ih (applyOp devs op) (registeredB_mono devs op s h)

theorem wasConfirmed_registered (ops : List LedgerOp) (devs : List Device) (s : String)
    (h : wasConfirmed devs ops s = true) :
    registeredB (applyOps devs ops) s = true := by
  induction ops generalizing devs with
  | nil => simp [wasConfirmed] at h
  | cons op rest ih =>
    simp only [wasConfirmed, Bool.or_eq_true] at h
    rcases h with h | h
    · cases op with
      | reg s' m h' t => simp at h
      | conf s' st t =>
        simp only [Bool.and_eq_true, beq_iff_eq] at h
        have hreg : registeredB devs s = true := by
          rw [← h.1]
          exact h.2
        exact registeredB_mono_ops rest _ s (registeredB_mono devs _ s hreg)
    · exact ih (applyOp devs op) h

theorem wasConfirmed_append_one (ops : List LedgerOp) (devs : List Device)
    (op : LedgerOp) (s : String) :
    wasConfirmed devs (ops ++ [op]) s =
      (wasConfirmed devs ops s ||
        match op with
        | .conf s' _ _ => s' == s && registeredB (applyOps devs ops) s'
        | _ => false) := by
  induction ops generalizing devs with
  | nil =>
    cases op with
    | reg s' m h' t => simp [wasConfirmed, applyOps]
    | conf s' st t => simp [wasConfirmed, applyOps]
  | cons o rest ih =>
    have hstep : applyOps devs (o :: rest) = applyOps (applyOp devs o) rest := rfl
    simp only [List.cons_append, wasConfirmed, List.append_eq, ih (applyOp devs o), hstep,
      Bool.or_assoc]

theorem confirmedAt_iff_wasConfirmed (ops : List LedgerOp) :
    ∀ d ∈ applyOps [] ops, d.confirmedAt.isSome = wasConfirmed [] ops d.serial := by
  induction ops using List.reverseRecOn with
  | nil => simp [applyOps]
  | append_singleton ops op ih =>
    intro d hd
    rw [show applyOps [] (ops ++ [op]) = applyOp (applyOps [] ops) op by
      simp [applyOps, List.foldl_append]]
      at hd
    rw [wasConfirmed_append_one]
    cases op with
    | reg s m h t =>
      simp only [applyOp, registerDevice] at hd
      split at hd
      · rw [ih d hd, Bool.or_false]
      · rename_i hdup
        simp only [List.mem_append, List.mem_singleton] at hd
        rcases hd with hd | rfl
        · rw [ih d hd, Bool.or_false]
        · simp only [Option.isSome_none, Bool.or_false]
          by_contra hcontra
          have hwc : wasConfirmed [] ops s = true := by
            revert hcontra
            cases wasConfirmed [] ops s <;> simp
          have hreg := wasConfirmed_registered ops [] s hwc
          apply hdup
          rcases List.any_eq_true.mp hreg with ⟨d₀, hd₀, hps⟩
          exact List.any_eq_true.mpr ⟨d₀, hd₀, by simp only [hps, Bool.true_or]⟩
    | conf s st t =>
      simp only [applyOp, confirmDevice] at hd
      rcases List.mem_map.mp hd with ⟨d₀, hd₀, rfl⟩
      by_cases hs : d₀.serial = s
      · have hreg : registeredB (applyOps [] ops) s = true :=
          List.any_eq_true.mpr ⟨d₀, hd₀, by simp [hs]⟩
        simp [hs, hreg]
      · simp only [beq_iff_eq, if_neg hs]
        rw [ih d₀ hd₀]
        have hs' : (s == d₀.serial) = false := by
          simp only [beq_eq_false_iff_ne, ne_eq]
          exact fun hcontra => hs hcontra.symm
        simp [hs']

/-- C10: Statistics count failed confirmations as confirmed:
`confirm_device` sets `confirmed_at` whenever it sets `status`, for any
status value (including `'failure'`); `get_statistics` reports
`confirmed_devices` as the count of rows with non-null `confirmed_at`;
hence over every operation sequence from an empty ledger,
`confirmed_devices` equals the number of devices that have run
confirmation at least once, regardless of the reported outcome. -/
theorem c10_stats_count_failed_confirms :
    (∀ (devs : List Device) (serial status : String) (now : Int),
      ∀ d ∈ (confirmDevice devs serial status now).1,
        d.serial = serial → d.confirmedAt = some now ∧ d.status = status) ∧
    (∀ devs : List Device, (getStatistics devs).confirmedDevices
        = (devs.filter (fun d => d.confirmedAt.isSome)).length) ∧
    (∀ ops : List LedgerOp, ∀ d ∈ applyOps [] ops,
        d.confirmedAt.isSome = wasConfirmed [] ops d.serial) ∧
    (∀ ops : List LedgerOp, (getStatistics (applyOps [] ops)).confirmedDevices
        = ((applyOps [] ops).filter (fun d => wasConfirmed [] ops d.serial)).length) := by
  refine ⟨?_, ?_, confirmedAt_iff_wasConfirmed, ?_⟩
  · intro devs serial status now d hd hser
    simp only [confirmDevice] at hd
    rcases List.mem_map.mp hd with ⟨d₀, _, rfl⟩
    by_cases hs : d₀.serial = serial
    · simp [hs]
    · rw [if_neg (by simpa using hs)] at hser ⊢
      exact absurd hser hs
  · intro devs
    rfl
  · intro ops
    unfold getStatistics
    simp only []
    congr 1
    exact List.filter_congr (fun d hd => confirmedAt_iff_wasConfirmed ops d hd)

/-- Witness for C10: a device that confirms with status `'failure'` has
`confirmed_at` set and is counted in `confirmed_devices`. -/
theorem c10_stats_count_failed_confirms_witness :
    ((Device.mk "s1" "aa" "sensor-01" 0 (some 5) "failure").confirmedAt = some 5 ∧
      (Device.mk "s1" "aa" "sensor-01" 0 (some 5) "failure").status = "failure") ∧
    (getStatistics (applyOps []
        [LedgerOp.reg "s1" "aa" "sensor-01" 0,
         LedgerOp.conf "s1" "failure" 5])).confirmedDevices
      = ((applyOps [] [LedgerOp.reg "s1" "aa" "sensor-01" 0, LedgerOp.conf "s1" "failure" 5]).filter
          (fun d => wasConfirmed []
            [LedgerOp.reg "s1" "aa" "sensor-01" 0, LedgerOp.conf "s1" "failure" 5] d.serial)).length :=
  ⟨c10_stats_count_failed_confirms.1
      [⟨"s1", "aa", "sensor-01", 0, none, "pending"⟩] "s1" "failure" 5
      ⟨"s1", "aa", "sensor-01", 0, some 5, "failure"⟩ (by decide) (by decide),
   c10_stats_count_failed_confirms.2.2.2
      [LedgerOp.reg "s1" "aa" "sensor-01" 0, LedgerOp.conf "s1" "failure" 5]⟩

/-! ### Hostname allocation (C1) -/

/-- Run `n` rounds of counter-table allocation (`database.original.py`). -/
def counterRun (pfx : String) : Nat → List (String × Nat) × List String
  | 0 => ([], [])
  | n + 1 =>
    match counterRun pfx n with
    | (cs, trace) =>
      match getNextHostnameFull cs pfx with
      | (h, cs') => (cs', trace ++ [h])

theorem counterRun_state (pfx : String) : ∀ n, (counterRun pfx n).1
    = if n = 0 then [] else [(pfx, n)] := by
  intro n
  induction n with
  | zero => rfl
  | succ k ih =>
    simp only [counterRun, ih]
    by_cases hk : k = 0
    · subst hk
      simp [getNextHostnameFull, lookupCounter, setCounter]
    · rw [if_neg hk, if_neg (by omega)]
      simp [getNextHostnameFull, lookupCounter, setCounter]

/-- The counter-table allocator of `database.original.py` satisfies the
claim: starting from an empty ledger, sequential allocations return the
zero-padded suffixes 1, 2, 3, …: the (n+1)-st call returns
`fmtHostname pfx (n+1)`, so suffixes never repeat and have no gaps. -/
theorem counterRun_trace (pfx : String) (n : Nat) :
    (counterRun pfx (n + 1)).2 = (counterRun pfx n).2 ++ [fmtHostname pfx (n + 1)] := by
  simp only [counterRun]
  rw [counterRun_state pfx n]
  by_cases hn : n = 0
  · subst hn
    simp [getNextHostnameFull, lookupCounter]
  · rw [if_neg hn]
    simp [getNextHostnameFull, lookupCounter]

set_option maxRecDepth 100000 in
/-- C1 evaluated at the failing input of the simplified allocator
(`core.py`): in a sequential allocate-then-register run from an empty
ledger with prefix `"sensor"`, the 100th and the 101st calls both
return `"sensor-100"` — the lexicographic `ORDER BY hostname DESC`
keeps `"sensor-99"` maximal once three-digit suffixes appear, so the
same suffix is handed out twice, violating the strictly-increasing,
never-colliding allocation the claim states. -/
theorem c1_simple_allocator_collision :
    (allocRun 101).2.getD 99 "" = "sensor-100" ∧
    (allocRun 101).2.getD 100 "" = "sensor-100" ∧
    (allocRun 100).2.getD 98 "" = "sensor-99" := by
  decide
